import Mathlib

/-!
Shallow embedding of `dog.py`, a hardware-watchdog feeder daemon
(class `WDT` with its supervisor loop `WDT.run`, the signal handler
`WDT._stop`, and the reference health predicate `check_system_alive`),
together with proofs about the behaviour of the supervisor loop.

Modelling conventions:
* Wall-clock readings of `time.time()` are integers (seconds).  Each loop
  tick is treated as instantaneous, so every `time.time()` call made inside
  one tick returns that tick's reading.
* `dog.py` uses `time.time()` (the adjustable wall clock) for all duration
  comparisons; the monitoring loop is therefore modelled over an explicit
  list of per-tick wall-clock readings (`monitorRun`), and the whole run is
  additionally modelled under the ideal unadjusted clock in which tick `k`
  happens at reading `t0 + k * interval` (`runTrace`).
* Exceptions are modelled with `Except Unit`: Python code without a
  `try/except` around a call is embedded so that an `error` result of the
  call becomes the result of the whole computation.
-/

namespace Dog

/-- Observable events of the daemon process. -/
inductive Ev where
  | feed        -- `WDT.feed`: `fd.write("1"); fd.flush()` (dog.py lines 13-15)
  | healthCall  -- an invocation of `health_check()` (line 37)
  | log         -- the countdown print (line 44)
  | disarm      -- `fd.write("V")` in `WDT._stop` (line 18)
  | close       -- `fd.close()` in `WDT._stop` (line 19)
  | exitOk      -- `sys.exit(0)` in `WDT._stop` (line 20)
deriving DecidableEq, Repr

/-- Phase of the supervisor loop `WDT.run`: the startup-grace while loop
(lines 29-31) or the monitoring while loop (lines 36-48). -/
inductive Phase where
  | starting
  | monitoring
deriving DecidableEq, Repr

/-- State carried across ticks of `WDT.run`: the current phase and the
`fail_start` variable (line 34, `None` until an unhealthy streak starts). -/
structure SupervisorState where
  phase : Phase
  failStart : Option ℤ
deriving DecidableEq, Repr

/-- One tick of the monitoring loop body of `WDT.run` (dog.py lines 37-46),
given the result `healthy` of `health_check is None or health_check()`, the
current `fail_start` value and the tick's wall-clock reading `now`.
Returns whether `feed()` was called and the new `fail_start`:
healthy ticks feed and clear `fail_start`; unhealthy ticks set `fail_start`
to `now` if unset and feed iff `elapsed = now - fail_start < fail_timeout`. -/
def monitorTick (fail_timeout : ℤ) (fail_start : Option ℤ) (healthy : Bool)
    (now : ℤ) : Bool × Option ℤ :=
  if healthy then (true, none)
  else
    let fs := fail_start.getD now
    (decide (now - fs < fail_timeout), some fs)

/-- Feed decisions of the monitoring loop over a list of ticks, each tick a
pair of the health result and the tick's wall-clock reading. -/
def monitorRun (fail_timeout : ℤ) : Option ℤ → List (Bool × ℤ) → List Bool
  | _, [] => []
  | fs, (h, t) :: rest =>
      (monitorTick fail_timeout fs h t).1 ::
        monitorRun fail_timeout (monitorTick fail_timeout fs h t).2 rest

/-- The `fail_start` value after the monitoring loop has processed a list of
ticks. -/
def monitorFinal (fail_timeout : ℤ) : Option ℤ → List (Bool × ℤ) → Option ℤ
  | fs, [] => fs
  | fs, (h, t) :: rest =>
      monitorFinal fail_timeout (monitorTick fail_timeout fs h t).2 rest

/-- Monitoring loop where each tick's health result may be an exception
(`Except.error`).  Line 37 of dog.py calls `health_check()` with no
`try/except` anywhere in `WDT.run`, so an exception raised by the health
predicate propagates out of the loop: it becomes the result of the whole
run instead of being mapped to an unhealthy tick. -/
def monitorRunE (fail_timeout : ℤ) :
    Option ℤ → List (Except Unit Bool × ℤ) → Except Unit (List Bool)
  | _, [] => .ok []
  | fs, (res, t) :: rest =>
      match res with
      | .error e => .error e
      | .ok h =>
          (monitorRunE fail_timeout (monitorTick fail_timeout fs h t).2 rest).map
            (fun l => (monitorTick fail_timeout fs h t).1 :: l)

/-- Monitoring loop where each call to `feed()` may fail (`feedRes k` is the
outcome of the `k`-th tick's write, when that tick feeds).  `WDT.feed`
(lines 13-15) and the loop body (lines 38/46) contain no `try/except`, so a
write failure propagates out of `WDT.run` and the run produces no further
feed decisions. -/
def monitorRunF (fail_timeout : ℤ) (feedRes : ℕ → Except Unit Unit) :
    Option ℤ → ℕ → List (Bool × ℤ) → Except Unit (List Bool)
  | _, _, [] => .ok []
  | fs, k, (h, t) :: rest =>
      let fed := (monitorTick fail_timeout fs h t).1
      let fs2 := (monitorTick fail_timeout fs h t).2
      if fed then
        match feedRes k with
        | .error e => .error e
        | .ok _ =>
            (monitorRunF fail_timeout feedRes fs2 (k + 1) rest).map
              (fun l => fed :: l)
      else
        (monitorRunF fail_timeout feedRes fs2 (k + 1) rest).map
          (fun l => fed :: l)

/-- `WDT.__init__` (dog.py line 10): `self.fd = open(device, "w")` with no
`try/except` in `__init__` nor around `WDT(...)` in `__main__`, so the
result of opening the device becomes the result of constructing the daemon:
a failure to open is never swallowed. -/
def wdtInitFd (openResult : Except Unit ℕ) : Except Unit ℕ := do
  let fd ← openResult
  pure fd

/-- Reference health predicate `check_system_alive` (dog.py lines 51-70),
given the parsed `MemAvailable` value (kB) read from `/proc/meminfo` and
the outcome of the scratch-file write to `/tmp/.wdt_test`: either an
exception, or the elapsed wall-clock time of the write in seconds.
Returns `false` when available memory is below 50000 kB, when the write
raises, or when the write took more than 5 seconds; otherwise `true`. -/
def check_system_alive (memAvailable : ℤ) (writeResult : Except Unit ℚ) : Bool :=
  if memAvailable < 50000 then false
  else
    match writeResult with
    | .error _ => false
    | .ok elapsed => if elapsed > 5 then false else true

/-- Apply a wall-clock adjustment of `delta` seconds to all readings from
position `j` onward of a list of per-tick wall-clock readings (a clock jump
occurring mid-run, between tick `j - 1` and tick `j`). -/
def adjustAt (delta : ℤ) : ℕ → List ℤ → List ℤ
  | _, [] => []
  | 0, ts => ts.map (fun t => t + delta)
  | j + 1, t :: ts => t :: adjustAt delta j ts

/-- One monitoring-loop tick of `WDT.run` (dog.py lines 36-48) as events
plus successor state.  `health` is the `health_check` argument (`none`
models `health_check=None`), `k` the tick index, `now` the tick's
wall-clock reading. -/
def monStep (fail_timeout : ℤ) (health : Option (ℕ → Bool)) (k : ℕ) (now : ℤ)
    (fs : Option ℤ) : List Ev × SupervisorState :=
  match health with
  | none => ([Ev.feed], ⟨Phase.monitoring, none⟩)
  | some h =>
      if h k then ([Ev.healthCall, Ev.feed], ⟨Phase.monitoring, none⟩)
      else
        let fs0 := fs.getD now
        if now - fs0 < fail_timeout then
          ([Ev.healthCall, Ev.log, Ev.feed], ⟨Phase.monitoring, some fs0⟩)
        else
          ([Ev.healthCall, Ev.log], ⟨Phase.monitoring, some fs0⟩)

/-- One tick of the whole run of `WDT.run` under the ideal clock: tick `k`
reads `time.time() = t0 + k * interval`.  While the startup while loop's
condition `time.time() < end_time` (line 29), i.e. `k * interval <
startup_delay`, holds, the tick feeds unconditionally (line 30) and no
health check happens; the first tick whose reading fails the condition
enters the monitoring loop (with `fail_start = None`, line 34) and performs
its first monitoring tick at that same reading. -/
def step (startup_delay interval fail_timeout : ℤ) (health : Option (ℕ → Bool))
    (t0 : ℤ) (k : ℕ) (s : SupervisorState) : List Ev × SupervisorState :=
  match s.phase with
  | Phase.starting =>
      if (k : ℤ) * interval < startup_delay then
        ([Ev.feed], ⟨Phase.starting, none⟩)
      else
        monStep fail_timeout health k (t0 + (k : ℤ) * interval) none
  | Phase.monitoring =>
      monStep fail_timeout health k (t0 + (k : ℤ) * interval) s.failStart

/-- Supervisor state before tick `k` of the whole run (ideal clock). -/
def runSt (startup_delay interval fail_timeout : ℤ)
    (health : Option (ℕ → Bool)) (t0 : ℤ) : ℕ → SupervisorState
  | 0 => ⟨Phase.starting, none⟩
  | k + 1 =>
      (step startup_delay interval fail_timeout health t0 k
        (runSt startup_delay interval fail_timeout health t0 k)).2

/-- Events emitted by tick `k` of the whole run (ideal clock). -/
def tickEvents (startup_delay interval fail_timeout : ℤ)
    (health : Option (ℕ → Bool)) (t0 : ℤ) (k : ℕ) : List Ev :=
  (step startup_delay interval fail_timeout health t0 k
    (runSt startup_delay interval fail_timeout health t0 k)).1

/-- Event trace of the first `n` ticks of the whole run (ideal clock). -/
def runTrace (startup_delay interval fail_timeout : ℤ)
    (health : Option (ℕ → Bool)) (t0 : ℤ) (n : ℕ) : List Ev :=
  ((List.range n).map
    (tickEvents startup_delay interval fail_timeout health t0)).flatten

/-- `WDT._stop` (dog.py lines 17-20), the SIGTERM handler: write the magic
stop byte `"V"`, close the device handle, `sys.exit(0)`. -/
def stopHandler : List Ev := [Ev.disarm, Ev.close, Ev.exitOk]

/-- Full process trace when SIGTERM is delivered at the boundary after tick
`n`: the events of the run so far followed by the handler's disarm
sequence; `sys.exit(0)` ends the process, so nothing follows. -/
def traceWithSignal (startup_delay interval fail_timeout : ℤ)
    (health : Option (ℕ → Bool)) (t0 : ℤ) (n : ℕ) : List Ev :=
  runTrace startup_delay interval fail_timeout health t0 n ++ stopHandler

/-! ### Lemmas about the monitoring loop -/

lemma monitorRun_append (ft : ℤ) (fs : Option ℤ) (a b : List (Bool × ℤ)) :
    monitorRun ft fs (a ++ b) =
      monitorRun ft fs a ++ monitorRun ft (monitorFinal ft fs a) b := by
  induction a generalizing fs with
  | nil => simp [monitorRun, monitorFinal]
  | cons p rest ih =>
      obtain ⟨h, t⟩ := p
      simp [monitorRun, monitorFinal, ih]

lemma monitorFinal_append (ft : ℤ) (fs : Option ℤ) (a b : List (Bool × ℤ)) :
    monitorFinal ft fs (a ++ b) = monitorFinal ft (monitorFinal ft fs a) b := by
  induction a generalizing fs with
  | nil => simp [monitorFinal]
  | cons p rest ih =>
      obtain ⟨h, t⟩ := p
      simp [monitorFinal, ih]

lemma monitorRun_unhealthy_from (ft T : ℤ) (ts : List ℤ) :
    monitorRun ft (some T) (ts.map fun t => (false, t)) =
      ts.map fun t => decide (t < T + ft) := by
  induction ts with
  | nil => rfl
  | cons t rest ih =>
      simp only [List.map_cons, monitorRun, monitorTick, Bool.false_eq_true,
        if_false, Option.getD_some]
      refine congrArg₂ _ ?_ ih
      simp only [decide_eq_decide]
      omega

/-- C1: if, in the monitoring phase, the health predicate is unhealthy on
every tick from time `T` onward with no intervening healthy tick, then
every tick at time `< T + fail_timeout` feeds and every tick at time
`≥ T + fail_timeout` does not feed. -/
theorem C1_unhealthy_streak_feeds_until_timeout (fail_timeout T : ℤ)
    (ts : List ℤ) :
    monitorRun fail_timeout none ((T :: ts).map fun t => (false, t)) =
      (T :: ts).map fun t => decide (t < T + fail_timeout) := by
  simp only [List.map_cons, monitorRun, monitorTick, Bool.false_eq_true,
    if_false, Option.getD_none]
  refine congrArg₂ _ ?_ (monitorRun_unhealthy_from fail_timeout T ts)
  simp only [decide_eq_decide]
  omega

/-- C5: a healthy tick clears the fail window (`fail_start = None` whenever
the most recent health check succeeded), and the run after a healthy tick
coincides with a fresh run started with no fail window, so a later
unhealthy streak restarts the `fail_timeout` budget from zero. -/
theorem C5_healthy_tick_resets_fail_window (fail_timeout t : ℤ)
    (fs : Option ℤ) (pre rest : List (Bool × ℤ)) :
    monitorFinal fail_timeout fs (pre ++ [(true, t)]) = none ∧
    monitorRun fail_timeout fs (pre ++ (true, t) :: rest) =
      monitorRun fail_timeout fs (pre ++ [(true, t)]) ++
        monitorRun fail_timeout none rest := by
  have hfin : monitorFinal fail_timeout fs (pre ++ [(true, t)]) = none := by
    rw [monitorFinal_append]
    simp [monitorFinal, monitorTick]
  refine ⟨hfin, ?_⟩
  have : pre ++ (true, t) :: rest = (pre ++ [(true, t)]) ++ rest := by simp
  rw [this, monitorRun_append, hfin]

/-- C2: the supervisor loop contains no exception handling around
`health_check()`, so a health predicate that raises on every call crashes
the loop at its first monitoring tick instead of being treated as
unhealthy. -/
theorem C2_raising_health_check_crashes_loop (fail_timeout t : ℤ)
    (fs : Option ℤ) (ts : List ℤ) :
    monitorRunE fail_timeout fs ((t :: ts).map fun u => (Except.error (), u)) =
      Except.error () := rfl

/-- C9: the reference health predicate returns healthy iff available memory
is at or above the 50000 kB floor and the scratch-file write completes
without error in at most 5 seconds. -/
theorem C9_check_system_alive_iff (memAvailable : ℤ)
    (writeResult : Except Unit ℚ) :
    check_system_alive memAvailable writeResult = true ↔
      (50000 ≤ memAvailable ∧
        ∃ d : ℚ, writeResult = Except.ok d ∧ d ≤ 5) := by
  unfold check_system_alive
  by_cases hmem : memAvailable < 50000
  · simp only [if_pos hmem]
    constructor
    · intro h; simp at h
    · rintro ⟨h50, -⟩; omega
  · push_neg at hmem
    simp only [if_neg (not_lt.mpr hmem)]
    cases writeResult with
    | error e =>
        simp only [Bool.false_eq_true, false_iff, not_and]
        rintro - ⟨d, hd, -⟩
        cases hd
    | ok d =>
        by_cases hd : d > 5
        · simp only [if_pos hd, Bool.false_eq_true, false_iff, not_and]
          rintro - ⟨d', hd', hle⟩
          cases hd'
          exact absurd hle (not_le.mpr hd)
        · simp only [if_neg hd, true_iff]
          exact ⟨hmem, d, rfl, not_lt.mp hd⟩

lemma monitorRunF_ok_feeds (ft : ℤ) (feedRes : ℕ → Except Unit Unit) :
    ∀ (ticks : List (Bool × ℤ)) (fs : Option ℤ) (k : ℕ) (l : List Bool),
      monitorRunF ft feedRes fs k ticks = Except.ok l →
      ∀ j, l[j]? = some true → feedRes (k + j) = Except.ok () := by
  intro ticks
  induction ticks with
  | nil =>
      intro fs k l h j hj
      simp only [monitorRunF, Except.ok.injEq] at h
      subst h
      simp at hj
  | cons p rest ih =>
      obtain ⟨hb, t⟩ := p
      intro fs k l h j hj
      simp only [monitorRunF] at h
      by_cases hfed : (monitorTick ft fs hb t).1 = true
      · rw [if_pos hfed] at h
        cases hfk : feedRes k with
        | error e => rw [hfk] at h; cases h
        | ok u =>
            rw [hfk] at h
            cases hrec : monitorRunF ft feedRes (monitorTick ft fs hb t).2
                (k + 1) rest with
            | error e => rw [hrec] at h; cases h
            | ok l' =>
                rw [hrec] at h
                simp only [Except.map, Except.ok.injEq] at h
                subst h
                cases j with
                | zero =>
                    cases u
                    simpa using hfk
                | succ j' =>
                    simp only [List.getElem?_cons_succ] at hj
                    have := ih (monitorTick ft fs hb t).2 (k + 1) l' hrec j' hj
                    have e : k + 1 + j' = k + (j' + 1) := by omega
                    rw [e] at this
                    exact this
      · rw [if_neg hfed] at h
        cases hrec : monitorRunF ft feedRes (monitorTick ft fs hb t).2
            (k + 1) rest with
        | error e => rw [hrec] at h; cases h
        | ok l' =>
            rw [hrec] at h
            simp only [Except.map, Except.ok.injEq] at h
            subst h
            cases j with
            | zero =>
                simp only [List.getElem?_cons_zero, Option.some.injEq] at hj
                exact absurd hj hfed
            | succ j' =>
                simp only [List.getElem?_cons_succ] at hj
                have := ih (monitorTick ft fs hb t).2 (k + 1) l' hrec j' hj
                have e : k + 1 + j' = k + (j' + 1) := by omega
                rw [e] at this
                exact this

/-- C6: a failure to open the watchdog device at startup propagates out of
construction, and a feed-write failure mid-run is never swallowed: a run
that produces feed decisions normally must have had every attempted feed
write succeed (equivalently, the first failing feed write makes the whole
run produce the error instead of a decision list). -/
theorem C6_device_errors_are_fatal :
    (∀ r : Except Unit ℕ, wdtInitFd r = r) ∧
    (∀ (fail_timeout : ℤ) (feedRes : ℕ → Except Unit Unit) (fs : Option ℤ)
        (k : ℕ) (ticks : List (Bool × ℤ)) (l : List Bool),
        monitorRunF fail_timeout feedRes fs k ticks = Except.ok l →
        ∀ j, l[j]? = some true → feedRes (k + j) = Except.ok ()) := by
  constructor
  · intro r; cases r <;> rfl
  · intro fail_timeout feedRes fs k ticks l h j hj
    exact monitorRunF_ok_feeds fail_timeout feedRes ticks fs k l h j hj

/-- Witness for C6 at concrete inputs: the error result of a failed open is
returned unchanged, and in a run `[(true, 0)]` whose single tick feeds and
returns decisions `[true]`, the feed write at tick 0 must have succeeded. -/
theorem C6_device_errors_are_fatal_witness :
    wdtInitFd (Except.error ()) = Except.error () ∧
    (fun _ : ℕ => (Except.ok () : Except Unit Unit)) (0 + 0) = Except.ok () :=
  ⟨C6_device_errors_are_fatal.1 (Except.error ()),
   C6_device_errors_are_fatal.2 600 (fun _ => Except.ok ()) none 0
     [(true, 0)] [true] rfl 0 rfl⟩

/-- C8 counterexample: the claim that the feed decisions are unchanged by a
wall-clock adjustment occurring mid-run is false — `dog.py` compares
durations of `time.time()` readings, so a forward clock jump during an
unhealthy streak makes the fail window appear expired early. -/
theorem C8_counterexample_wall_clock_adjustment :
    ¬ ∀ (fail_timeout : ℤ) (hs : List Bool) (ts : List ℤ) (delta : ℤ)
        (j : ℕ),
        monitorRun fail_timeout none (hs.zip ts) =
          monitorRun fail_timeout none (hs.zip (adjustAt delta j ts)) :=
  fun hcl =>
    absurd (hcl 600 [false, false, false] [0, 10, 20] 690 2) (by decide)

/-- C8 amended: duration comparisons use wall-clock `time.time()` readings,
so the decisions are invariant only under a uniform shift of all readings
(a clock adjustment made before the run); a mid-run adjustment can change
them. -/
theorem C8_amended_uniform_clock_shift_invariant (fail_timeout c : ℤ)
    (fs : Option ℤ) (ticks : List (Bool × ℤ)) :
    monitorRun fail_timeout (fs.map fun u => u + c)
        (ticks.map fun p => (p.1, p.2 + c)) =
      monitorRun fail_timeout fs ticks := by
  induction ticks generalizing fs with
  | nil => rfl
  | cons p rest ih =>
      obtain ⟨hb, t⟩ := p
      cases hb
      · cases fs with
        | none =>
            simp only [List.map_cons, monitorRun, monitorTick,
              Bool.false_eq_true, if_false, Option.map_none', Option.getD_none]
            refine congrArg₂ _ ?_ ?_
            · simp only [decide_eq_decide]; omega
            · have := ih (some t)
              simpa using this
        | some u =>
            simp only [List.map_cons, monitorRun, monitorTick,
              Bool.false_eq_true, if_false, Option.map_some', Option.getD_some]
            refine congrArg₂ _ ?_ ?_
            · simp only [decide_eq_decide]; omega
            · have := ih (some u)
              simpa using this
      · simp only [List.map_cons, monitorRun, monitorTick, if_true]
        refine congrArg₂ _ rfl ?_
        have := ih none
        simpa using this

lemma step_health_none (startup_delay interval fail_timeout t0 : ℤ) (k : ℕ)
    (s : SupervisorState) :
    (step startup_delay interval fail_timeout none t0 k s).1 = [Ev.feed] ∧
    ((step startup_delay interval fail_timeout none t0 k s).2).failStart =
      none := by
  unfold step monStep
  cases s.phase
  case starting => split_ifs <;> exact ⟨rfl, rfl⟩
  case monitoring => exact ⟨rfl, rfl⟩

/-- C10: with `health_check=None` (the default) every tick of the run feeds
unconditionally — its events are exactly one feed, with no health call —
and the fail-window start stays `None` forever. -/
theorem C10_no_health_check_always_feeds
    (startup_delay interval fail_timeout t0 : ℤ) (k : ℕ) :
    (runSt startup_delay interval fail_timeout none t0 k).failStart = none ∧
    tickEvents startup_delay interval fail_timeout none t0 k = [Ev.feed] := by
  constructor
  · cases k with
    | zero => rfl
    | succ k' =>
        exact (step_health_none startup_delay interval fail_timeout t0 k'
          (runSt startup_delay interval fail_timeout none t0 k')).2
  · exact (step_health_none startup_delay interval fail_timeout t0 k
      (runSt startup_delay interval fail_timeout none t0 k)).1

lemma monStep_events_sub (ft : ℤ) (health : Option (ℕ → Bool)) (k : ℕ)
    (now : ℤ) (fs : Option ℤ) :
    ∀ e ∈ (monStep ft health k now fs).1,
      e = Ev.feed ∨ e = Ev.healthCall ∨ e = Ev.log := by
  intro e he
  unfold monStep at he
  cases health with
  | none => simp at he; simp [he]
  | some h =>
      by_cases hh : h k
      · simp [hh] at he
        rcases he with rfl | rfl <;> simp
      · simp only [hh, Bool.false_eq_true, if_false] at he
        split_ifs at he <;> simp at he <;> rcases he with rfl | rfl | rfl <;>
          simp

lemma monStep_ne_nil (ft : ℤ) (health : Option (ℕ → Bool)) (k : ℕ) (now : ℤ)
    (fs : Option ℤ) : (monStep ft health k now fs).1 ≠ [] := by
  unfold monStep
  cases health with
  | none => simp
  | some h =>
      by_cases hh : h k
      · simp [hh]
      · simp only [hh, Bool.false_eq_true, if_false]
        split_ifs <;> simp

lemma monStep_log (ft : ℤ) (h : ℕ → Bool) (k : ℕ) (now : ℤ) (fs : Option ℤ)
    (hh : h k = false) : Ev.log ∈ (monStep ft (some h) k now fs).1 := by
  unfold monStep
  simp only [hh, Bool.false_eq_true, if_false]
  split_ifs <;> simp

lemma tickEvents_events_sub (d i ft : ℤ) (health : Option (ℕ → Bool))
    (t0 : ℤ) (k : ℕ) :
    ∀ e ∈ tickEvents d i ft health t0 k,
      e = Ev.feed ∨ e = Ev.healthCall ∨ e = Ev.log := by
  intro e he
  unfold tickEvents step at he
  cases hs : (runSt d i ft health t0 k).phase
  · rw [hs] at he
    simp only [] at he
    split_ifs at he
    · simp at he; simp [he]
    · exact monStep_events_sub ft health k (t0 + (k : ℤ) * i) none e he
  · rw [hs] at he
    exact monStep_events_sub ft health k (t0 + (k : ℤ) * i)
      (runSt d i ft health t0 k).failStart e he

lemma tickEvents_ne_nil (d i ft : ℤ) (health : Option (ℕ → Bool)) (t0 : ℤ)
    (k : ℕ) : tickEvents d i ft health t0 k ≠ [] := by
  unfold tickEvents step
  cases hs : (runSt d i ft health t0 k).phase
  · simp only []
    split_ifs
    · simp
    · exact monStep_ne_nil ft health k (t0 + (k : ℤ) * i) none
  · exact monStep_ne_nil ft health k (t0 + (k : ℤ) * i)
      (runSt d i ft health t0 k).failStart

lemma runTrace_events_sub (d i ft : ℤ) (health : Option (ℕ → Bool)) (t0 : ℤ)
    (n : ℕ) :
    ∀ e ∈ runTrace d i ft health t0 n,
      e = Ev.feed ∨ e = Ev.healthCall ∨ e = Ev.log := by
  intro e he
  unfold runTrace at he
  rw [List.mem_flatten] at he
  obtain ⟨l, hl, hel⟩ := he
  rw [List.mem_map] at hl
  obtain ⟨k, -, rfl⟩ := hl
  exact tickEvents_events_sub d i ft health t0 k e hel

lemma runTrace_no_disarm (d i ft : ℤ) (health : Option (ℕ → Bool)) (t0 : ℤ)
    (n : ℕ) : Ev.disarm ∉ runTrace d i ft health t0 n := by
  intro h
  rcases runTrace_events_sub d i ft health t0 n Ev.disarm h with h' | h' | h' <;>
    cases h'

/-- C3: delivering SIGTERM at any point of the run (in either phase)
produces exactly one disarm write, exactly one handle close, exactly one
successful process exit, the exit is the final event, and no feed occurs at
or after any point by which the disarm write has happened. -/
theorem C3_sigterm_disarms_once_and_exits
    (startup_delay interval fail_timeout : ℤ) (health : Option (ℕ → Bool))
    (t0 : ℤ) (n : ℕ) :
    (traceWithSignal startup_delay interval fail_timeout health t0 n).count
        Ev.disarm = 1 ∧
    (traceWithSignal startup_delay interval fail_timeout health t0 n).count
        Ev.close = 1 ∧
    (traceWithSignal startup_delay interval fail_timeout health t0 n).count
        Ev.exitOk = 1 ∧
    (traceWithSignal startup_delay interval fail_timeout health t0 n).getLast?
      = some Ev.exitOk ∧
    ∀ k, Ev.disarm ∈
        (traceWithSignal startup_delay interval fail_timeout health t0 n).take
          k →
      Ev.feed ∉
        (traceWithSignal startup_delay interval fail_timeout health t0 n).drop
          k := by
  set R := runTrace startup_delay interval fail_timeout health t0 n with hR
  have hcount : ∀ e : Ev, e = Ev.disarm ∨ e = Ev.close ∨ e = Ev.exitOk →
      R.count e = 0 := by
    intro e he
    rw [List.count_eq_zero]
    intro hmem
    rcases runTrace_events_sub startup_delay interval fail_timeout health t0 n
        e hmem with h' | h' | h' <;> rcases he with rfl | rfl | rfl <;> cases h'
  refine ⟨?_, ?_, ?_, ?_, ?_⟩
  · rw [traceWithSignal, List.count_append, ← hR, hcount Ev.disarm (by simp)]
    rfl
  · rw [traceWithSignal, List.count_append, ← hR, hcount Ev.close (by simp)]
    rfl
  · rw [traceWithSignal, List.count_append, ← hR, hcount Ev.exitOk (by simp)]
    rfl
  · rw [traceWithSignal, ← hR, stopHandler]
    have : R ++ [Ev.disarm, Ev.close, Ev.exitOk] =
        (R ++ [Ev.disarm, Ev.close]) ++ [Ev.exitOk] := by simp
    rw [this, List.getLast?_concat]
  · intro k hk hf
    rw [traceWithSignal, ← hR] at hk hf
    rw [List.take_append_eq_append_take] at hk
    have hdis : Ev.disarm ∉ R :=
      runTrace_no_disarm startup_delay interval fail_timeout health t0 n
    rcases List.mem_append.mp hk with h1 | h2
    · exact hdis ((List.take_sublist _ _).subset h1)
    · have hlen : R.length < k := by
        by_contra hle
        push_neg at hle
        have hz : k - R.length = 0 := by omega
        rw [hz] at h2
        simp at h2
      rw [List.drop_append_eq_append_drop] at hf
      rcases List.mem_append.mp hf with g1 | g2
      · have hnil : R.drop k = [] := by
          rw [List.drop_eq_nil_iff]
          omega
        rw [hnil] at g1
        simp at g1
      · have : Ev.feed ∈ stopHandler := (List.drop_sublist _ _).subset g2
        simp [stopHandler] at this

/-- Witness for C3 at `startup_delay=300, interval=10, fail_timeout=600,
health_check=None, t0=0`, SIGTERM after 2 ticks, cut point `k=3`: the
disarm write is within the first 3 events and no feed follows. -/
theorem C3_sigterm_witness :
    Ev.disarm ∈ (traceWithSignal 300 10 600 none 0 2).take 3 ∧
    Ev.feed ∉ (traceWithSignal 300 10 600 none 0 2).drop 3 :=
  ⟨by decide,
   (C3_sigterm_disarms_once_and_exits 300 10 600 none 0 2).2.2.2.2 3
     (by decide)⟩

lemma runSt_starting (d i ft : ℤ) (health : Option (ℕ → Bool)) (t0 : ℤ)
    (hi : 0 < i) :
    ∀ k : ℕ, (k : ℤ) * i < d →
      runSt d i ft health t0 k = ⟨Phase.starting, none⟩ := by
  intro k
  induction k with
  | zero => intro _; rfl
  | succ k ih =>
      intro hk
      have hcast : (((k + 1 : ℕ)) : ℤ) * i = (k : ℤ) * i + i := by
        push_cast
        ring
      have hk' : (k : ℤ) * i < d := by
        rw [hcast] at hk
        omega
      show (step d i ft health t0 k (runSt d i ft health t0 k)).2 = _
      rw [ih hk']
      unfold step
      simp only [if_pos hk']

lemma tickEvents_starting (d i ft : ℤ) (health : Option (ℕ → Bool)) (t0 : ℤ)
    (hi : 0 < i) (k : ℕ) (hk : (k : ℤ) * i < d) :
    tickEvents d i ft health t0 k = [Ev.feed] := by
  unfold tickEvents
  rw [runSt_starting d i ft health t0 hi k hk]
  unfold step
  simp only [if_pos hk]

/-- C4: during the startup grace period, every elapsed time `t <
startup_delay` is covered by a tick at elapsed time `k * interval ∈
(t - interval, t]` that feeds, so the device is fed at least once every
`interval` seconds; and no tick within the grace period ever invokes the
health predicate (its events are exactly one feed). -/
theorem C4_startup_grace_feeds_without_health_checks
    (startup_delay interval fail_timeout : ℤ) (health : Option (ℕ → Bool))
    (t0 : ℤ) (hi : 0 < interval) :
    (∀ t : ℤ, 0 ≤ t → t < startup_delay →
      ∃ k : ℕ, (k : ℤ) * interval ≤ t ∧ t < ((k : ℤ) + 1) * interval ∧
        tickEvents startup_delay interval fail_timeout health t0 k =
          [Ev.feed]) ∧
    (∀ k : ℕ, (k : ℤ) * interval < startup_delay →
      Ev.healthCall ∉
        tickEvents startup_delay interval fail_timeout health t0 k) := by
  constructor
  · intro t ht0 htd
    refine ⟨(t / interval).toNat, ?_⟩
    have hq : 0 ≤ t / interval := Int.ediv_nonneg ht0 (le_of_lt hi)
    have hcast : (((t / interval).toNat : ℤ)) = t / interval :=
      Int.toNat_of_nonneg hq
    have hmod0 : 0 ≤ t % interval := Int.emod_nonneg t (ne_of_gt hi)
    have hmodlt : t % interval < interval := Int.emod_lt_of_pos t hi
    have hdef : t % interval = t - interval * (t / interval) := Int.emod_def t interval
    have h1 : t / interval * interval ≤ t := by
      rw [mul_comm]
      omega
    have h2 : t < (t / interval + 1) * interval := by
      have : (t / interval + 1) * interval = interval * (t / interval) + interval := by
        ring
      omega
    refine ⟨by rw [hcast]; exact h1, by rw [hcast]; exact h2, ?_⟩
    exact tickEvents_starting startup_delay interval fail_timeout health t0 hi
      ((t / interval).toNat) (by rw [hcast]; exact lt_of_le_of_lt h1 htd)
  · intro k hk
    rw [tickEvents_starting startup_delay interval fail_timeout health t0 hi
      k hk]
    simp

/-- Witness for C4 at `startup_delay=300, interval=10`, an always-healthy
predicate, elapsed time `t = 25` and tick `k = 2`. -/
theorem C4_startup_grace_witness :
    (∃ k : ℕ, (k : ℤ) * 10 ≤ 25 ∧ (25 : ℤ) < ((k : ℤ) + 1) * 10 ∧
      tickEvents 300 10 600 (some fun _ => true) 0 k = [Ev.feed]) ∧
    Ev.healthCall ∉ tickEvents 300 10 600 (some fun _ => true) 0 2 :=
  ⟨(C4_startup_grace_feeds_without_health_checks 300 10 600
      (some fun _ => true) 0 (by decide)).1 25 (by decide) (by decide),
   (C4_startup_grace_feeds_without_health_checks 300 10 600
      (some fun _ => true) 0 (by decide)).2 2 (by decide)⟩

/-- C7: the supervisor loop never terminates through its own logic: no
prefix of the run's trace contains a process exit or a disarm, every tick
(including ticks after feeds have ceased) emits at least one event, and
every unhealthy monitoring tick emits the countdown log. -/
theorem C7_loop_never_self_terminates
    (startup_delay interval fail_timeout : ℤ) (health : Option (ℕ → Bool))
    (t0 : ℤ) :
    (∀ n : ℕ,
      Ev.exitOk ∉ runTrace startup_delay interval fail_timeout health t0 n ∧
      Ev.disarm ∉ runTrace startup_delay interval fail_timeout health t0 n) ∧
    (∀ k : ℕ,
      tickEvents startup_delay interval fail_timeout health t0 k ≠ []) ∧
    (∀ (h : ℕ → Bool) (k : ℕ), health = some h → h k = false →
      (runSt startup_delay interval fail_timeout health t0 k).phase =
        Phase.monitoring →
      Ev.log ∈ tickEvents startup_delay interval fail_timeout health t0 k) := by
  refine ⟨?_, ?_, ?_⟩
  · intro n
    constructor
    · intro hmem
      rcases runTrace_events_sub startup_delay interval fail_timeout health
          t0 n Ev.exitOk hmem with h' | h' | h' <;> cases h'
    · exact runTrace_no_disarm startup_delay interval fail_timeout health t0 n
  · intro k
    exact tickEvents_ne_nil startup_delay interval fail_timeout health t0 k
  · intro h k hhealth hk hphase
    subst hhealth
    unfold tickEvents step
    rw [hphase]
    exact monStep_log fail_timeout h k (t0 + (k : ℤ) * interval)
      (runSt startup_delay interval fail_timeout (some h) t0 k).failStart hk

/-- Witness for C7 with a permanently unhealthy predicate: no exit or
disarm in the first 2 ticks' trace, tick 3 emits events, and monitoring
tick 31 (past `startup_delay / interval = 30`) emits the countdown log. -/
theorem C7_loop_never_self_terminates_witness :
    (Ev.exitOk ∉ runTrace 300 10 600 (some fun _ => false) 0 2 ∧
     Ev.disarm ∉ runTrace 300 10 600 (some fun _ => false) 0 2) ∧
    tickEvents 300 10 600 (some fun _ => false) 0 3 ≠ [] ∧
    Ev.log ∈ tickEvents 300 10 600 (some fun _ => false) 0 31 :=
  ⟨(C7_loop_never_self_terminates 300 10 600 (some fun _ => false) 0).1 2,
   (C7_loop_never_self_terminates 300 10 600 (some fun _ => false) 0).2.1 3,
   (C7_loop_never_self_terminates 300 10 600 (some fun _ => false) 0).2.2
     (fun _ => false) 31 rfl rfl (by decide)⟩

end Dog
